import Mathlib

/-!
Verification of the OpenCores/StarFive PWM driver core
(`drivers/pwm/pwm-ocores.c`).

The development shallowly embeds the driver's register-level logic:

* `div_round_closest_ull` models the kernel macro `DIV_ROUND_CLOSEST_ULL`
  on unsigned 64-bit values: the dividend expression and the added half
  divisor wrap modulo 2^64, then an exact floor division is taken.
* `ChannelRegs` holds the four 32-bit registers of one channel
  (`CNTR`, `HRC`, `LRC`, `CTRL`); a register value is a `Nat` kept
  below 2^32 by hypotheses where it matters.
* `ocores_pwm_get_state` and `ocores_pwm_apply` embed the two pwm_ops
  callbacks.  `apply` returns the C `int` result together with the
  register block after the call (unchanged on the early-error return).
* `starfive_jh71x0_get_ch_base` and `ocores_pwm_ch_base` embed the
  per-variant channel-address resolution, including the fallback used
  when a variant supplies no `get_ch_base` function.
* `ocores_pwm_probe` embeds the probe control flow over an environment
  describing the platform resources the probe consumes.

Machine arithmetic is modelled on `Nat` with explicit `% 2^64` (u64
wrap) and `% 2^32` (u32 truncation) exactly where the C expressions
perform them.
-/

/-- `NSEC_PER_SEC` from the kernel headers. -/
def NSEC_PER_SEC : Nat := 1000000000

/-- `DIV_ROUND_CLOSEST_ULL(x, d)`: `(x + d/2) / d` on u64 values.  The
dividend `x` is a u64 expression (reduced mod 2^64), the addition of
`d/2` again wraps mod 2^64, and the division is exact. -/
def div_round_closest_ull (x divisor : Nat) : Nat :=
  (x % 18446744073709551616 + divisor / 2) % 18446744073709551616 / divisor

/-- OCPWM_CTRL bit 0: counter enable. -/
def OCPWM_EN : Nat := 1

/-- OCPWM_CTRL bit 1: external clock select. -/
def OCPWM_ECLK : Nat := 2

/-- OCPWM_CTRL bit 2: invert external clock. -/
def OCPWM_NEC : Nat := 4

/-- OCPWM_CTRL bit 3: output enable. -/
def OCPWM_OE : Nat := 8

/-- OCPWM_CTRL bit 4: single-shot. -/
def OCPWM_SIGNLE : Nat := 16

/-- OCPWM_CTRL bit 5: interrupt enable. -/
def OCPWM_INTE : Nat := 32

/-- OCPWM_CTRL bit 6: interrupt status. -/
def OCPWM_INT : Nat := 64

/-- OCPWM_CTRL bit 7: counter reset. -/
def OCPWM_CNTRRST : Nat := 128

/-- OCPWM_CTRL bit 8: capture enable. -/
def OCPWM_CAPTE : Nat := 256

/-- All ones of a u32, used to model the C `~` complement on u32. -/
def U32_MASK : Nat := 4294967295

/-- The kernel `enum pwm_polarity`. -/
inductive PwmPolarity where
  | normal
  | inversed
deriving DecidableEq, Repr

/-- The four 32-bit registers of one PWM channel. -/
structure ChannelRegs where
  cntr : Nat
  hrc : Nat
  lrc : Nat
  ctrl : Nat
deriving DecidableEq, Repr

/-- The kernel `struct pwm_state` fields the driver touches:
`period` and `duty_cycle` are u64 nanosecond counts. -/
structure PwmState where
  period : Nat
  duty_cycle : Nat
  enabled : Bool
  polarity : PwmPolarity
deriving DecidableEq, Repr

/-- `starfive_jh71x0_get_ch_base`: channel base for the JH71x0 variant,
`base + (channel > 3 ? channel % 4 * 0x10 + (1 << 15) : channel * 0x10)`. -/
def starfive_jh71x0_get_ch_base (base : Nat) (channel : Nat) : Nat :=
  base + (if channel > 3 then channel % 4 * 0x10 + (1 <<< 15) else channel * 0x10)

/-- The channel-base computation shared by `ocores_pwm_get_state` and
`ocores_pwm_apply`:
`pwm->data->get_ch_base ? pwm->data->get_ch_base(pwm->regs, dev->hwpwm) : pwm->regs`.
The variant's nullable `get_ch_base` function pointer is an `Option`. -/
def ocores_pwm_ch_base (get_ch_base : Option (Nat → Nat → Nat))
    (regs : Nat) (hwpwm : Nat) : Nat :=
  match get_ch_base with
  | some f => f regs hwpwm
  | none => regs

/-- `ocores_pwm_get_state` on the register block of the resolved channel:
reads `LRC`, `HRC`, `CTRL` and converts ticks to nanoseconds with
`DIV_ROUND_CLOSEST_ULL((u64)ticks * NSEC_PER_SEC, clk_rate)`. -/
def ocores_pwm_get_state (clk_rate : Nat) (regs : ChannelRegs) : PwmState :=
  { period := div_round_closest_ull (regs.lrc * NSEC_PER_SEC) clk_rate
    duty_cycle := div_round_closest_ull (regs.hrc * NSEC_PER_SEC) clk_rate
    polarity := PwmPolarity.inversed
    enabled := regs.ctrl &&& OCPWM_EN != 0 }

/-- `ocores_pwm_apply` on the register block of the resolved channel.
Returns the C `int` result paired with the channel registers after the
call: on the `-EINVAL` early return no register is written; otherwise
the period/duty tick counts (truncated to u32) go to `LRC`/`HRC`,
`CNTR` is reset to 0, and `CTRL` is read back and rewritten with the
enable bits ORed in or masked out (`~` is the u32 complement). -/
def ocores_pwm_apply (clk_rate : Nat) (regs : ChannelRegs) (state : PwmState) :
    Int × ChannelRegs :=
  if state.polarity ≠ PwmPolarity.inversed then
    (-22, regs)
  else
    let period_data := div_round_closest_ull (state.period * clk_rate) NSEC_PER_SEC % 4294967296
    let duty_data := div_round_closest_ull (state.duty_cycle * clk_rate) NSEC_PER_SEC % 4294967296
    let ctrl_data := regs.ctrl
    let new_ctrl :=
      if state.enabled then ctrl_data ||| (OCPWM_EN ||| OCPWM_OE)
      else ctrl_data &&& (U32_MASK ^^^ (OCPWM_EN ||| OCPWM_OE))
    (0, { cntr := 0, hrc := duty_data, lrc := period_data, ctrl := new_ctrl })

/-- The platform resources `ocores_pwm_probe` consumes, in the order the
probe acquires them.  An error field of `some e` means the framework
call failed with code `e`; `clk_get_rate_result` is the unsigned long
the clock framework reports. -/
structure ProbeEnv where
  match_ok : Bool
  alloc_ok : Bool
  ioremap_err : Option Int
  clk_err : Option Int
  clk_get_rate_result : Nat
  pwmchip_add_err : Option Int
deriving DecidableEq, Repr

/-- The controller as configured by a successful probe. -/
structure OcoresPwmDevice where
  npwm : Nat
  of_pwm_n_cells : Nat
  clk_rate : Nat
deriving DecidableEq, Repr

/-- `ocores_pwm_probe`: match the device id, allocate, map the register
window, get the clock, deassert the optional reset, read the clock rate
into the u32 `clk_rate` field and reject a zero rate with `-EINVAL`,
then register the chip (npwm = 8, of_pwm_n_cells = 3). -/
def ocores_pwm_probe (env : ProbeEnv) : Except Int OcoresPwmDevice :=
  if ¬ env.match_ok then .error (-22)
  else if ¬ env.alloc_ok then .error (-12)
  else match env.ioremap_err with
  | some e => .error e
  | none => match env.clk_err with
    | some e => .error e
    | none =>
      let clk_rate := env.clk_get_rate_result % 4294967296
      if clk_rate = 0 then .error (-22)
      else match env.pwmchip_add_err with
        | some e => .error e
        | none => .ok { npwm := 8, of_pwm_n_cells := 3, clk_rate := clk_rate }

/-- Modelled from the spec: the spec's `round_to_nearest(a / b)`
reference conversion, `(a + b/2) / b` in exact (unbounded) arithmetic,
used to compare the driver's machine arithmetic against the spec's
formula. -/
def round_to_nearest_div (a b : Nat) : Nat :=
  (a + b / 2) / b

/-- Claim C5 (counterexample): under the default policy (no variant
`get_ch_base`), channel 1 of a controller based at 0x1000 does not
resolve to `0x1000 + 1 * 0x10`; the fallback ignores the channel index. -/
theorem C5_counterexample :
    ocores_pwm_ch_base none 0x1000 1 ≠ 0x1000 + 1 * 0x10 := by
  decide

/-- Claim C5 (amended): under the default (fallback) address-resolution
policy the resolved channel register-block base equals the controller
base itself for every channel index; no per-channel `i * 0x10` offset is
applied. -/
theorem C5_default_ch_base (base i : Nat) :
    ocores_pwm_ch_base none base i = base := rfl

/-- Claim C6: under the alternate (JH71x0) address-resolution policy,
channels 0–3 resolve to `base + i * 0x10` and channels 4–7 resolve to
`base + (i % 4) * 0x10 + 0x8000`. -/
theorem C6_jh71x0_ch_base (base i : Nat) :
    (i < 4 → starfive_jh71x0_get_ch_base base i = base + i * 0x10) ∧
    (4 ≤ i → i < 8 → starfive_jh71x0_get_ch_base base i = base + i % 4 * 0x10 + 0x8000) := by
  have hsh : (1 <<< 15 : Nat) = 32768 := rfl
  constructor
  · intro h
    unfold starfive_jh71x0_get_ch_base
    rw [if_neg (by omega)]
  · intro h4 _
    unfold starfive_jh71x0_get_ch_base
    rw [if_pos (by omega), hsh]
    omega

/-- Claim C6 (witness): channel 2 resolves into the primary bank and
channel 5 into the secondary bank at 0x8000. -/
theorem C6_jh71x0_ch_base_witness :
    starfive_jh71x0_get_ch_base 0x1000 2 = 0x1000 + 2 * 0x10 ∧
    starfive_jh71x0_get_ch_base 0x1000 5 = 0x1000 + 5 % 4 * 0x10 + 0x8000 :=
  ⟨(C6_jh71x0_ch_base 0x1000 2).1 (by decide),
   (C6_jh71x0_ch_base 0x1000 5).2 (by decide) (by decide)⟩

/-- Claim C10: the JH71x0 resolver is total in the channel index: every
channel `c ≥ 4` — including indices at or beyond the declared count of
8 — resolves to `base + (c % 4) * 0x10 + 0x8000`, and consequently
channel `c` and channel `c + 4` alias the same register block. -/
theorem C10_jh71x0_alias (base c : Nat) (h : 4 ≤ c) :
    starfive_jh71x0_get_ch_base base c = base + c % 4 * 0x10 + 0x8000 ∧
    starfive_jh71x0_get_ch_base base c = starfive_jh71x0_get_ch_base base (c + 4) := by
  have hsh : (1 <<< 15 : Nat) = 32768 := rfl
  unfold starfive_jh71x0_get_ch_base
  rw [if_pos (by omega), if_pos (by omega), hsh]
  have hmod : (c + 4) % 4 = c % 4 := Nat.add_mod_right c 4
  rw [hmod]
  omega

/-- Claim C10 (witness): channel 9 (beyond the declared count of 8) still
resolves into the secondary bank and aliases channel 13. -/
theorem C10_jh71x0_alias_witness :
    starfive_jh71x0_get_ch_base 0x1000 9 = 0x1000 + 9 % 4 * 0x10 + 0x8000 ∧
    starfive_jh71x0_get_ch_base 0x1000 9 = starfive_jh71x0_get_ch_base 0x1000 13 :=
  C10_jh71x0_alias 0x1000 9 (by decide)

/-- Claim C4: `ocores_pwm_apply` fails (with `-EINVAL`) exactly when the
requested polarity is not the single supported inversed value — no other
validation exists (any period/duty values succeed) — and the failing
early return performs no register writes, leaving all four channel
registers unchanged. -/
theorem C4_polarity_validation (clk_rate : Nat) (regs : ChannelRegs) (s : PwmState) :
    ((ocores_pwm_apply clk_rate regs s).1 ≠ 0 ↔ s.polarity ≠ PwmPolarity.inversed) ∧
    (s.polarity ≠ PwmPolarity.inversed →
      ocores_pwm_apply clk_rate regs s = (-22, regs)) ∧
    (s.polarity = PwmPolarity.inversed → (ocores_pwm_apply clk_rate regs s).1 = 0) := by
  unfold ocores_pwm_apply
  by_cases h : s.polarity = PwmPolarity.inversed <;> simp [h]

/-- Claim C4 (witness): a normal-polarity request is rejected with the
registers untouched, and an inversed-polarity request succeeds. -/
theorem C4_polarity_validation_witness :
    (ocores_pwm_apply 24000000 ⟨1, 2, 3, 4⟩ ⟨1000, 500, true, PwmPolarity.normal⟩
      = (-22, ⟨1, 2, 3, 4⟩)) ∧
    (ocores_pwm_apply 24000000 ⟨1, 2, 3, 4⟩ ⟨1000, 500, true, PwmPolarity.inversed⟩).1 = 0 :=
  ⟨(C4_polarity_validation 24000000 ⟨1, 2, 3, 4⟩ ⟨1000, 500, true, PwmPolarity.normal⟩).2.1
     (by decide),
   (C4_polarity_validation 24000000 ⟨1, 2, 3, 4⟩ ⟨1000, 500, true, PwmPolarity.inversed⟩).2.2
     (by decide)⟩

/-- Bit pattern of `OCPWM_EN | OCPWM_OE = 9`: only bits 0 and 3 are set. -/
lemma testBit_en_oe (j : Nat) :
    (9 : Nat).testBit j = (decide (j = 0) || decide (j = 3)) := by
  rcases Nat.lt_or_ge j 4 with h | h
  · interval_cases j <;> decide
  · have hlt : (9 : Nat) < 2 ^ j :=
      calc (9 : Nat) < 2 ^ 4 := by norm_num
        _ ≤ 2 ^ j := Nat.pow_le_pow_right (by norm_num) h
    rw [Nat.testBit_eq_false_of_lt hlt]
    have h0 : j ≠ 0 := by omega
    have h3 : j ≠ 3 := by omega
    simp [h0, h3]

/-- Bit pattern of the u32 complement `~(OCPWM_EN | OCPWM_OE)`: all bits
below 32 except 0 and 3. -/
lemma testBit_en_oe_mask (j : Nat) :
    (4294967286 : Nat).testBit j =
      (decide (j < 32) && decide (j ≠ 0) && decide (j ≠ 3)) := by
  rcases Nat.lt_or_ge j 32 with h | h
  · interval_cases j <;> decide
  · have hlt : (4294967286 : Nat) < 2 ^ j :=
      calc (4294967286 : Nat) < 2 ^ 32 := by norm_num
        _ ≤ 2 ^ j := Nat.pow_le_pow_right (by norm_num) h
    rw [Nat.testBit_eq_false_of_lt hlt]
    have h' : ¬ j < 32 := by omega
    simp [h']

/-- A u32 register value has no bits at index 32 or above. -/
lemma testBit_high_false {c : Nat} (hc : c < 4294967296) {j : Nat} (hj : 32 ≤ j) :
    c.testBit j = false := by
  apply Nat.testBit_eq_false_of_lt
  calc c < 4294967296 := hc
    _ = 2 ^ 32 := by norm_num
    _ ≤ 2 ^ j := Nat.pow_le_pow_right (by norm_num) hj

/-- Claim C7: for every prior u32 `CTRL` value, applying with
`enabled = true` yields a `CTRL` whose bits 0 (enable) and 3
(output-enable) are set and every other bit agrees with the prior value;
applying with `enabled = false` yields a `CTRL` with those two bits
cleared and every other bit preserved; in particular from
`CTRL = 0b100000` an enabling apply yields `CTRL = 0b101001 = 41`. -/
theorem C7_ctrl_bit_preservation (clk_rate : Nat) (regs : ChannelRegs) (p d : Nat)
    (hctrl : regs.ctrl < 4294967296) :
    (∀ j, ((ocores_pwm_apply clk_rate regs ⟨p, d, true, PwmPolarity.inversed⟩).2.ctrl.testBit j)
        = (regs.ctrl.testBit j || decide (j = 0) || decide (j = 3))) ∧
    (∀ j, ((ocores_pwm_apply clk_rate regs ⟨p, d, false, PwmPolarity.inversed⟩).2.ctrl.testBit j)
        = (regs.ctrl.testBit j && decide (j ≠ 0) && decide (j ≠ 3))) ∧
    (ocores_pwm_apply clk_rate { regs with ctrl := 32 }
        ⟨p, d, true, PwmPolarity.inversed⟩).2.ctrl = 41 := by
  refine ⟨?_, ?_, ?_⟩
  · intro j
    have hred : (ocores_pwm_apply clk_rate regs ⟨p, d, true, PwmPolarity.inversed⟩).2.ctrl
        = regs.ctrl ||| 9 := rfl
    rw [hred, Nat.testBit_lor, testBit_en_oe]
    cases regs.ctrl.testBit j <;> simp
  · intro j
    have hred : (ocores_pwm_apply clk_rate regs ⟨p, d, false, PwmPolarity.inversed⟩).2.ctrl
        = regs.ctrl &&& 4294967286 := rfl
    rw [hred, Nat.testBit_land, testBit_en_oe_mask]
    rcases Nat.lt_or_ge j 32 with h | h
    · simp [h, Bool.and_assoc]
    · rw [testBit_high_false hctrl h]
      have h' : ¬ j < 32 := by omega
      simp [h']
  · have hred : (ocores_pwm_apply clk_rate { regs with ctrl := 32 }
        ⟨p, d, true, PwmPolarity.inversed⟩).2.ctrl = 32 ||| 9 := rfl
    rw [hred]
    decide

/-- Claim C7 (witness): with prior `CTRL = 0b100000` (interrupt enable),
an enabling apply reports bit 5 still set alongside bits 0 and 3, a
disabling apply reports bit 0 cleared, and the enabling example yields
`CTRL = 41`. -/
theorem C7_ctrl_bit_preservation_witness :
    ((ocores_pwm_apply 24000000 ⟨0, 0, 0, 32⟩ ⟨1000, 500, true, PwmPolarity.inversed⟩).2.ctrl.testBit 5
      = ((32 : Nat).testBit 5 || decide ((5 : Nat) = 0) || decide ((5 : Nat) = 3))) ∧
    ((ocores_pwm_apply 24000000 ⟨0, 0, 0, 32⟩ ⟨1000, 500, false, PwmPolarity.inversed⟩).2.ctrl.testBit 0
      = ((32 : Nat).testBit 0 && decide ((0 : Nat) ≠ 0) && decide ((0 : Nat) ≠ 3))) ∧
    (ocores_pwm_apply 24000000 ⟨0, 0, 0, 32⟩ ⟨1000, 500, true, PwmPolarity.inversed⟩).2.ctrl = 41 := by
  have h := C7_ctrl_bit_preservation 24000000 ⟨0, 0, 0, 32⟩ 1000 500 (by decide)
  exact ⟨h.1 5, h.2.1 0, by
    have h32 := C7_ctrl_bit_preservation 24000000 ⟨0, 0, 0, 32⟩ 1000 500 (by decide)
    exact h32.2.2⟩

/-- Claim C8: every successful apply (supported polarity) stores the
period tick count to `LRC`, the duty tick count to `HRC` and 0 to
`CNTR`; in particular after every successful apply the channel's `CNTR`
register is 0. -/
theorem C8_write_sequence (clk_rate : Nat) (regs : ChannelRegs) (s : PwmState)
    (h : s.polarity = PwmPolarity.inversed) :
    (ocores_pwm_apply clk_rate regs s).1 = 0 ∧
    (ocores_pwm_apply clk_rate regs s).2.cntr = 0 ∧
    (ocores_pwm_apply clk_rate regs s).2.lrc =
      div_round_closest_ull (s.period * clk_rate) NSEC_PER_SEC % 4294967296 ∧
    (ocores_pwm_apply clk_rate regs s).2.hrc =
      div_round_closest_ull (s.duty_cycle * clk_rate) NSEC_PER_SEC % 4294967296 := by
  unfold ocores_pwm_apply
  simp [h]

/-- Claim C8 (witness): a successful apply at 24 MHz with a 1 ms period
and 0.5 ms duty resets `CNTR` to 0. -/
theorem C8_write_sequence_witness :
    (ocores_pwm_apply 24000000 ⟨5, 6, 7, 8⟩
      ⟨1000000, 500000, true, PwmPolarity.inversed⟩).2.cntr = 0 :=
  (C8_write_sequence 24000000 ⟨5, 6, 7, 8⟩
    ⟨1000000, 500000, true, PwmPolarity.inversed⟩ (by decide)).2.1

/-- Claim C9: probing with a reported clock rate of zero (the u32
`clk_rate` field can never be negative) fails with `-EINVAL` and the
controller is never registered, so no apply/get_state is possible on it. -/
theorem C9_zero_clk_rate (env : ProbeEnv)
    (hm : env.match_ok = true) (ha : env.alloc_ok = true)
    (hio : env.ioremap_err = none) (hclk : env.clk_err = none)
    (hrate : env.clk_get_rate_result = 0) :
    ocores_pwm_probe env = .error (-22) ∧
    ∀ dev, ocores_pwm_probe env ≠ .ok dev := by
  unfold ocores_pwm_probe
  rw [hm, ha, hio, hclk, hrate]
  simp

/-- Claim C9 (witness): the concrete probe environment with every
framework resource available but a zero clock rate fails with `-EINVAL`. -/
theorem C9_zero_clk_rate_witness :
    ocores_pwm_probe ⟨true, true, none, none, 0, none⟩ = .error (-22) :=
  (C9_zero_clk_rate ⟨true, true, none, none, 0, none⟩ rfl rfl rfl rfl rfl).1

/-- Claim C3: for a positive u32 clock rate and u32 register contents,
get_state reports `period = round_to_nearest(LRC * 1e9 / clk_rate)` and
`duty_cycle` by the same formula on `HRC` (the 64-bit intermediate never
wraps for u32 inputs), polarity unconditionally inversed, and
`enabled = (CTRL & OCPWM_EN) != 0`; the function is total (never fails). -/
theorem C3_get_state (clk_rate : Nat) (regs : ChannelRegs)
    (hr : 0 < clk_rate) (hr32 : clk_rate < 4294967296)
    (hlrc : regs.lrc < 4294967296) (hhrc : regs.hrc < 4294967296) :
    (ocores_pwm_get_state clk_rate regs).period
      = round_to_nearest_div (regs.lrc * 1000000000) clk_rate ∧
    (ocores_pwm_get_state clk_rate regs).duty_cycle
      = round_to_nearest_div (regs.hrc * 1000000000) clk_rate ∧
    (ocores_pwm_get_state clk_rate regs).polarity = PwmPolarity.inversed ∧
    ((ocores_pwm_get_state clk_rate regs).enabled = true ↔ regs.ctrl &&& OCPWM_EN ≠ 0) := by
  refine ⟨?_, ?_, rfl, ?_⟩
  · show (regs.lrc * 1000000000 % 18446744073709551616 + clk_rate / 2)
          % 18446744073709551616 / clk_rate
        = (regs.lrc * 1000000000 + clk_rate / 2) / clk_rate
    have h1 : regs.lrc * 1000000000 % 18446744073709551616 = regs.lrc * 1000000000 :=
      Nat.mod_eq_of_lt (by omega)
    rw [h1]
    have h2 : (regs.lrc * 1000000000 + clk_rate / 2) % 18446744073709551616
        = regs.lrc * 1000000000 + clk_rate / 2 := Nat.mod_eq_of_lt (by omega)
    rw [h2]
  · show (regs.hrc * 1000000000 % 18446744073709551616 + clk_rate / 2)
          % 18446744073709551616 / clk_rate
        = (regs.hrc * 1000000000 + clk_rate / 2) / clk_rate
    have h1 : regs.hrc * 1000000000 % 18446744073709551616 = regs.hrc * 1000000000 :=
      Nat.mod_eq_of_lt (by omega)
    rw [h1]
    have h2 : (regs.hrc * 1000000000 + clk_rate / 2) % 18446744073709551616
        = regs.hrc * 1000000000 + clk_rate / 2 := Nat.mod_eq_of_lt (by omega)
    rw [h2]
  · show (regs.ctrl &&& OCPWM_EN != 0) = true ↔ regs.ctrl &&& OCPWM_EN ≠ 0
    simp [bne_iff_ne]

/-- Claim C3 (witness): at 24 MHz, `LRC = 24000` reads back as a period
of exactly 1,000,000 ns and `CTRL = 1` reads back as enabled. -/
theorem C3_get_state_witness :
    (ocores_pwm_get_state 24000000 ⟨0, 12000, 24000, 1⟩).period
      = round_to_nearest_div (24000 * 1000000000) 24000000 ∧
    (ocores_pwm_get_state 24000000 ⟨0, 12000, 24000, 1⟩).enabled = true :=
  ⟨(C3_get_state 24000000 ⟨0, 12000, 24000, 1⟩
      (by decide) (by decide) (by decide) (by decide)).1,
   (C3_get_state 24000000 ⟨0, 12000, 24000, 1⟩
      (by decide) (by decide) (by decide) (by decide)).2.2.2.mpr (by decide)⟩

/-- When the u64 multiply and the u32 store do not overflow, the tick
count `apply` computes and truncates equals the exact rounded division. -/
lemma apply_ticks_exact (ns r : Nat)
    (hov : ns * r + 500000000 < 18446744073709551616)
    (ht : round_to_nearest_div (ns * r) 1000000000 < 4294967296) :
    div_round_closest_ull (ns * r) NSEC_PER_SEC % 4294967296
      = round_to_nearest_div (ns * r) 1000000000 := by
  have ht' : (ns * r + 500000000) / 1000000000 < 4294967296 := ht
  show (ns * r % 18446744073709551616 + 500000000) % 18446744073709551616
        / 1000000000 % 4294967296
      = (ns * r + 500000000) / 1000000000
  have h1 : ns * r % 18446744073709551616 = ns * r := Nat.mod_eq_of_lt (by omega)
  rw [h1]
  have h2 : (ns * r + 500000000) % 18446744073709551616 = ns * r + 500000000 :=
    Nat.mod_eq_of_lt (by omega)
  rw [h2, Nat.mod_eq_of_lt ht']

/-- For u32 tick counts and a u32 clock rate, the read-path conversion
in get_state is the exact rounded division (no u64 wrap). -/
lemma get_state_ns_exact (ticks r : Nat)
    (ht : ticks < 4294967296) (hr32 : r < 4294967296) :
    div_round_closest_ull (ticks * NSEC_PER_SEC) r
      = round_to_nearest_div (ticks * 1000000000) r := by
  show (ticks * 1000000000 % 18446744073709551616 + r / 2) % 18446744073709551616 / r
      = (ticks * 1000000000 + r / 2) / r
  have h1 : ticks * 1000000000 % 18446744073709551616 = ticks * 1000000000 :=
    Nat.mod_eq_of_lt (by omega)
  rw [h1]
  have h2 : (ticks * 1000000000 + r / 2) % 18446744073709551616
      = ticks * 1000000000 + r / 2 := Nat.mod_eq_of_lt (by omega)
  rw [h2]

/-- Rounding ns→ticks→ns moves the value up by at most one rounding
unit `ceil(1e9 / r)`. -/
lemma roundtrip_upper (r n : Nat) (hr : 0 < r) :
    round_to_nearest_div (round_to_nearest_div (n * r) 1000000000 * 1000000000) r
      ≤ n + (1000000000 + r - 1) / r := by
  show ((n * r + 1000000000 / 2) / 1000000000 * 1000000000 + r / 2) / r
      ≤ n + (1000000000 + r - 1) / r
  obtain ⟨t, ht⟩ : ∃ t, (n * r + 1000000000 / 2) / 1000000000 = t := ⟨_, rfl⟩
  obtain ⟨c, hc⟩ : ∃ c, (1000000000 + r - 1) / r = c := ⟨_, rfl⟩
  rw [ht, hc]
  obtain ⟨m1, hm1, e1⟩ :
      ∃ m, m < 1000000000 ∧ 1000000000 * t + m = n * r + 500000000 := by
    refine ⟨(n * r + 1000000000 / 2) % 1000000000, Nat.mod_lt _ (by norm_num), ?_⟩
    rw [← ht]
    exact Nat.div_add_mod _ _
  obtain ⟨m3, hm3, e3⟩ :
      ∃ m, m < r ∧ r * c + m = 1000000000 + r - 1 := by
    refine ⟨(1000000000 + r - 1) % r, Nat.mod_lt _ hr, ?_⟩
    rw [← hc]
    exact Nat.div_add_mod _ _
  have hexp : (n + c + 1) * r = n * r + r * c + r := by ring
  have key : t * 1000000000 + r / 2 < (n + c + 1) * r := by omega
  have hlt : (t * 1000000000 + r / 2) / r < n + c + 1 :=
    (Nat.div_lt_iff_lt_mul hr).mpr key
  omega

/-- Rounding ns→ticks→ns moves the value down by at most one rounding
unit `ceil(1e9 / r)`. -/
lemma roundtrip_lower (r n : Nat) (hr : 0 < r) :
    n ≤ round_to_nearest_div (round_to_nearest_div (n * r) 1000000000 * 1000000000) r
      + (1000000000 + r - 1) / r := by
  show n ≤ ((n * r + 1000000000 / 2) / 1000000000 * 1000000000 + r / 2) / r
      + (1000000000 + r - 1) / r
  obtain ⟨t, ht⟩ : ∃ t, (n * r + 1000000000 / 2) / 1000000000 = t := ⟨_, rfl⟩
  obtain ⟨c, hc⟩ : ∃ c, (1000000000 + r - 1) / r = c := ⟨_, rfl⟩
  rw [ht, hc]
  obtain ⟨m1, hm1, e1⟩ :
      ∃ m, m < 1000000000 ∧ 1000000000 * t + m = n * r + 500000000 := by
    refine ⟨(n * r + 1000000000 / 2) % 1000000000, Nat.mod_lt _ (by norm_num), ?_⟩
    rw [← ht]
    exact Nat.div_add_mod _ _
  obtain ⟨m3, hm3, e3⟩ :
      ∃ m, m < r ∧ r * c + m = 1000000000 + r - 1 := by
    refine ⟨(1000000000 + r - 1) % r, Nat.mod_lt _ hr, ?_⟩
    rw [← hc]
    exact Nat.div_add_mod _ _
  obtain ⟨q, hq⟩ : ∃ q, (t * 1000000000 + r / 2) / r = q := ⟨_, rfl⟩
  rw [hq]
  obtain ⟨m2, hm2, e2⟩ :
      ∃ m, m < r ∧ r * q + m = t * 1000000000 + r / 2 := by
    refine ⟨(t * 1000000000 + r / 2) % r, Nat.mod_lt _ hr, ?_⟩
    rw [← hq]
    exact Nat.div_add_mod _ _
  have hc1 : 1 ≤ c := by
    rw [← hc]
    exact (Nat.one_le_div_iff hr).mpr (by omega)
  rcases Nat.lt_or_ge 1000000000 r with hbig | hsmall
  · have hqn : n ≤ q + 1 := by
      have hexp2 : r * (q + 1) = r * q + r := by ring
      have hcomm : r * n = n * r := Nat.mul_comm r n
      have h1 : r * n ≤ r * (q + 1) := by omega
      exact Nat.le_of_mul_le_mul_left h1 hr
    omega
  · have hB : 1000000000 ≤ r * c := by omega
    have hexp2 : r * (q + c) = r * q + r * c := by ring
    have hcomm : r * n = n * r := Nat.mul_comm r n
    have h1 : r * n ≤ r * (q + c) := by omega
    exact Nat.le_of_mul_le_mul_left h1 hr

/-- Claim C2 (counterexample): at clk_rate = 1e9 Hz a requested period of
2^32 ns yields a tick count of 2^32, whose u32 store truncates the value
written to `LRC` to 0, not the rounded quotient the claim states for
every input. -/
theorem C2_counterexample :
    (ocores_pwm_apply 1000000000 ⟨0, 0, 0, 0⟩
        ⟨4294967296, 0, false, PwmPolarity.inversed⟩).2.lrc
      ≠ round_to_nearest_div (4294967296 * 1000000000) 1000000000 := by
  decide

/-- Claim C2 (amended): whenever the 64-bit product does not wrap
(`ns * clk_rate + 5e8 < 2^64`) and the rounded tick count fits a u32,
the values written to `LRC` and `HRC` equal
`round_to_nearest(ns * clk_rate / 1e9)` for period and duty
respectively; in particular 1,000,000 ns at 24 MHz gives 24,000 ticks. -/
theorem C2_tick_conversion (clk_rate : Nat) (regs : ChannelRegs) (s : PwmState)
    (hpol : s.polarity = PwmPolarity.inversed)
    (hpov : s.period * clk_rate + 500000000 < 18446744073709551616)
    (hpt : round_to_nearest_div (s.period * clk_rate) 1000000000 < 4294967296)
    (hdov : s.duty_cycle * clk_rate + 500000000 < 18446744073709551616)
    (hdt : round_to_nearest_div (s.duty_cycle * clk_rate) 1000000000 < 4294967296) :
    (ocores_pwm_apply clk_rate regs s).2.lrc
      = round_to_nearest_div (s.period * clk_rate) 1000000000 ∧
    (ocores_pwm_apply clk_rate regs s).2.hrc
      = round_to_nearest_div (s.duty_cycle * clk_rate) 1000000000 ∧
    round_to_nearest_div (1000000 * 24000000) 1000000000 = 24000 := by
  have hne : ¬ (s.polarity ≠ PwmPolarity.inversed) := by simp [hpol]
  have hres : ocores_pwm_apply clk_rate regs s =
      (0, { cntr := 0,
            hrc := div_round_closest_ull (s.duty_cycle * clk_rate) NSEC_PER_SEC % 4294967296,
            lrc := div_round_closest_ull (s.period * clk_rate) NSEC_PER_SEC % 4294967296,
            ctrl := if s.enabled then regs.ctrl ||| (OCPWM_EN ||| OCPWM_OE)
                    else regs.ctrl &&& (U32_MASK ^^^ (OCPWM_EN ||| OCPWM_OE)) }) := by
    unfold ocores_pwm_apply
    rw [if_neg hne]
  rw [hres]
  exact ⟨apply_ticks_exact _ _ hpov hpt, apply_ticks_exact _ _ hdov hdt, by decide⟩

/-- Claim C2 (witness): at 24 MHz a 1 ms period is written to `LRC` as
exactly 24,000 ticks. -/
theorem C2_tick_conversion_witness :
    (ocores_pwm_apply 24000000 ⟨0, 0, 0, 0⟩
        ⟨1000000, 500000, true, PwmPolarity.inversed⟩).2.lrc = 24000 := by
  have h := C2_tick_conversion 24000000 ⟨0, 0, 0, 0⟩
    ⟨1000000, 500000, true, PwmPolarity.inversed⟩ rfl
    (by decide) (by decide) (by decide) (by decide)
  rw [h.1]
  decide

/-- ORing in `OCPWM_EN | OCPWM_OE = 9` makes the enable bit read back set. -/
lemma ctrl_enable_bit_set (c : Nat) : ((c ||| 9) &&& 1) = 1 := by
  have h1 : (c ||| 9) % 2 = 1 := by
    have hb := Nat.testBit_lor c 9 0
    simp only [Nat.testBit_zero] at hb
    rcases Nat.mod_two_eq_zero_or_one (c ||| 9) with h | h <;>
      rcases Nat.mod_two_eq_zero_or_one c with h2 | h2 <;> simp [h, h2] at hb ⊢
  rw [Nat.and_one_is_mod, h1]

/-- Masking with the u32 complement of `OCPWM_EN | OCPWM_OE` makes the
enable bit read back clear. -/
lemma ctrl_enable_bit_clear (c : Nat) : ((c &&& 4294967286) &&& 1) = 0 := by
  rw [Nat.and_assoc]
  norm_num

/-- Claim C1 (counterexample): at clk_rate = 1e9 Hz, applying a period of
2^32 ns succeeds, but reading the state back returns a period so small
that even adding the one-rounding-unit tolerance `ceil(1e9/clk_rate)`
stays below the requested period: the round-trip bound of the claim
fails at this input. -/
theorem C1_counterexample :
    (ocores_pwm_apply 1000000000 ⟨0, 0, 0, 0⟩
        ⟨4294967296, 0, false, PwmPolarity.inversed⟩).1 = 0 ∧
    (ocores_pwm_get_state 1000000000
        (ocores_pwm_apply 1000000000 ⟨0, 0, 0, 0⟩
          ⟨4294967296, 0, false, PwmPolarity.inversed⟩).2).period
      + (1000000000 + 1000000000 - 1) / 1000000000 < 4294967296 := by
  constructor
  · decide
  · decide

/-- Claim C1 (amended): for every logical state with the supported
(inversed) polarity and every positive u32 clk_rate, provided the 64-bit
tick computation does not overflow (for each of period and duty:
`ns * clk_rate + 5e8 < 2^64` and the rounded tick count fits a u32),
apply followed immediately by get_state returns `enabled` exactly and a
period and duty each within `ceil(1e9 / clk_rate)` nanoseconds of the
request. -/
theorem C1_roundtrip (clk_rate : Nat) (regs : ChannelRegs) (s : PwmState)
    (hr : 0 < clk_rate) (hr32 : clk_rate < 4294967296)
    (hpol : s.polarity = PwmPolarity.inversed)
    (hpov : s.period * clk_rate + 500000000 < 18446744073709551616)
    (hpt : round_to_nearest_div (s.period * clk_rate) 1000000000 < 4294967296)
    (hdov : s.duty_cycle * clk_rate + 500000000 < 18446744073709551616)
    (hdt : round_to_nearest_div (s.duty_cycle * clk_rate) 1000000000 < 4294967296) :
    (ocores_pwm_apply clk_rate regs s).1 = 0 ∧
    (ocores_pwm_get_state clk_rate (ocores_pwm_apply clk_rate regs s).2).enabled
      = s.enabled ∧
    (ocores_pwm_get_state clk_rate (ocores_pwm_apply clk_rate regs s).2).period
      ≤ s.period + (1000000000 + clk_rate - 1) / clk_rate ∧
    s.period ≤ (ocores_pwm_get_state clk_rate (ocores_pwm_apply clk_rate regs s).2).period
      + (1000000000 + clk_rate - 1) / clk_rate ∧
    (ocores_pwm_get_state clk_rate (ocores_pwm_apply clk_rate regs s).2).duty_cycle
      ≤ s.duty_cycle + (1000000000 + clk_rate - 1) / clk_rate ∧
    s.duty_cycle ≤
      (ocores_pwm_get_state clk_rate (ocores_pwm_apply clk_rate regs s).2).duty_cycle
      + (1000000000 + clk_rate - 1) / clk_rate := by
  have hne : ¬ (s.polarity ≠ PwmPolarity.inversed) := by simp [hpol]
  have hres : ocores_pwm_apply clk_rate regs s =
      (0, { cntr := 0,
            hrc := div_round_closest_ull (s.duty_cycle * clk_rate) NSEC_PER_SEC % 4294967296,
            lrc := div_round_closest_ull (s.period * clk_rate) NSEC_PER_SEC % 4294967296,
            ctrl := if s.enabled then regs.ctrl ||| (OCPWM_EN ||| OCPWM_OE)
                    else regs.ctrl &&& (U32_MASK ^^^ (OCPWM_EN ||| OCPWM_OE)) }) := by
    unfold ocores_pwm_apply
    rw [if_neg hne]
  rw [hres]
  refine ⟨rfl, ?_, ?_, ?_, ?_, ?_⟩
  · cases hsen : s.enabled
    · show ((regs.ctrl &&& (U32_MASK ^^^ (OCPWM_EN ||| OCPWM_OE))) &&& OCPWM_EN != 0) = false
      have h0 : ((regs.ctrl &&& 4294967286) &&& 1) = 0 := ctrl_enable_bit_clear regs.ctrl
      show ((regs.ctrl &&& 4294967286) &&& 1 != 0) = false
      rw [h0]
      rfl
    · show ((regs.ctrl ||| (OCPWM_EN ||| OCPWM_OE)) &&& OCPWM_EN != 0) = true
      have h1 : ((regs.ctrl ||| 9) &&& 1) = 1 := ctrl_enable_bit_set regs.ctrl
      show ((regs.ctrl ||| 9) &&& 1 != 0) = true
      rw [h1]
      rfl
  · show div_round_closest_ull
        ((div_round_closest_ull (s.period * clk_rate) NSEC_PER_SEC % 4294967296)
          * NSEC_PER_SEC) clk_rate
      ≤ s.period + (1000000000 + clk_rate - 1) / clk_rate
    rw [apply_ticks_exact _ _ hpov hpt, get_state_ns_exact _ _ hpt hr32]
    exact roundtrip_upper clk_rate s.period hr
  · show s.period ≤ div_round_closest_ull
        ((div_round_closest_ull (s.period * clk_rate) NSEC_PER_SEC % 4294967296)
          * NSEC_PER_SEC) clk_rate
      + (1000000000 + clk_rate - 1) / clk_rate
    rw [apply_ticks_exact _ _ hpov hpt, get_state_ns_exact _ _ hpt hr32]
    exact roundtrip_lower clk_rate s.period hr
  · show div_round_closest_ull
        ((div_round_closest_ull (s.duty_cycle * clk_rate) NSEC_PER_SEC % 4294967296)
          * NSEC_PER_SEC) clk_rate
      ≤ s.duty_cycle + (1000000000 + clk_rate - 1) / clk_rate
    rw [apply_ticks_exact _ _ hdov hdt, get_state_ns_exact _ _ hdt hr32]
    exact roundtrip_upper clk_rate s.duty_cycle hr
  · show s.duty_cycle ≤ div_round_closest_ull
        ((div_round_closest_ull (s.duty_cycle * clk_rate) NSEC_PER_SEC % 4294967296)
          * NSEC_PER_SEC) clk_rate
      + (1000000000 + clk_rate - 1) / clk_rate
    rw [apply_ticks_exact _ _ hdov hdt, get_state_ns_exact _ _ hdt hr32]
    exact roundtrip_lower clk_rate s.duty_cycle hr

/-- Claim C1 (witness): a 1 ms period with 0.5 ms duty at 24 MHz is
recovered by get_state within `ceil(1e9/24e6) = 42` ns, with the enabled
flag intact. -/
theorem C1_roundtrip_witness :
    (ocores_pwm_get_state 24000000
        (ocores_pwm_apply 24000000 ⟨0, 0, 0, 0⟩
          ⟨1000000, 500000, true, PwmPolarity.inversed⟩).2).enabled = true ∧
    (ocores_pwm_get_state 24000000
        (ocores_pwm_apply 24000000 ⟨0, 0, 0, 0⟩
          ⟨1000000, 500000, true, PwmPolarity.inversed⟩).2).period
      ≤ 1000000 + (1000000000 + 24000000 - 1) / 24000000 := by
  have h := C1_roundtrip 24000000 ⟨0, 0, 0, 0⟩
    ⟨1000000, 500000, true, PwmPolarity.inversed⟩
    (by decide) (by decide) rfl (by decide) (by decide) (by decide) (by decide)
  exact ⟨h.2.1, h.2.2.1⟩
